import Mathlib

/-
Shallow embedding of the poker hand evaluator in src/poker/src/lib.rs.

Modelling conventions:
- A card rank is the numeric value of the Rust `CardRank` enum (`as u8`),
  a `Nat`: 1 is the low ace, 2..13 the natural ranks, 14 the ace.
- The Rust arrays `[usize; 15]` (rank map) and `[usize; 4]` (suite map) are
  modelled as functions `Nat → Nat`; only indices below 15 (resp. 4) are
  ever consulted, exactly as in the source.
- Rust panics (failed `assert!`, `unwrap()`, `expect`, out-of-bounds
  indexing, non-exhaustive match arms) are modelled as `none`; functions
  whose Rust counterpart returns `Option<T>` and can also panic return
  `Option (Option T)`, the outer layer being the panic.
-/

namespace Poker

/-- A card suite, mirroring `CardSuite` in the source. -/
inductive CardSuite : Type
  | Clubs
  | Diamonds
  | Hearts
  | Spades
deriving DecidableEq

/-- Numeric discriminant of a suite, as produced by `card.suite as usize`
(declaration order gives Clubs = 0, Diamonds = 1, Hearts = 2, Spades = 3). -/
def CardSuite.idx : CardSuite → Nat
  | CardSuite.Clubs => 0
  | CardSuite.Diamonds => 1
  | CardSuite.Hearts => 2
  | CardSuite.Spades => 3

/-- `CardSuite::from_string`, on the character list of the one-character suite
substring; the panicking arm is modelled as `none`. -/
def CardSuite.from_chars (s : List Char) : Option CardSuite :=
  if s = ['C'] then some CardSuite.Clubs
  else if s = ['D'] then some CardSuite.Diamonds
  else if s = ['H'] then some CardSuite.Hearts
  else if s = ['S'] then some CardSuite.Spades
  else none

/-- `CardRank::from_number`: `((n - 1) % 14) + 1`, yielding the numeric rank
value. The subtraction is `Nat` subtraction; the program only ever applies
this to values ≥ 1. -/
def CardRank.from_number (n : Nat) : Nat := (n - 1) % 14 + 1

/-- `CardRank::from_string` on a character list. It accepts
"1", "2", ..., "10", "J", "Q", "K", "A" ("1" builds the internal low ace);
the panicking arm is modelled as `none`. -/
def CardRank.from_string (s : List Char) : Option Nat :=
  if s = ['1'] then some 1
  else if s = ['2'] then some 2
  else if s = ['3'] then some 3
  else if s = ['4'] then some 4
  else if s = ['5'] then some 5
  else if s = ['6'] then some 6
  else if s = ['7'] then some 7
  else if s = ['8'] then some 8
  else if s = ['9'] then some 9
  else if s = ['1', '0'] then some 10
  else if s = ['J'] then some 11
  else if s = ['Q'] then some 12
  else if s = ['K'] then some 13
  else if s = ['A'] then some 14
  else none

/-- A playing card: a rank and a suite. -/
structure Card where
  rank : Nat
  suite : CardSuite
deriving DecidableEq

/-- Stable insertion of `x` into a list: `x` is placed before the first
element `y` with `le x y`. -/
def insert_by {α : Type} (le : α → α → Bool) (x : α) : List α → List α
  | [] => [x]
  | y :: ys => if le x y then x :: y :: ys else y :: insert_by le x ys

/-- Stable insertion sort, modelling Rust's stable `sort_by`: `le x y` must
say "x may stay in front of y" (so `≤` for an ascending sort and `≥` for a
descending one, keeping equal elements in input order). -/
def sort_by {α : Type} (le : α → α → Bool) : List α → List α
  | [] => []
  | x :: xs => insert_by le x (sort_by le xs)

/-- Ascending stable sort of cards by rank, modelling
`cards.sort_by(|a, b| a.rank.cmp(&b.rank))`. -/
def sort_cards (cards : List Card) : List Card :=
  sort_by (fun a b => decide (a.rank ≤ b.rank)) cards

/-- `Card::new` on the character list of a card token: the rank substring is
everything but the last character, the suite substring is the last character.
The length assertion and the panicking parses are modelled as `none`. -/
def Card.new (s : List Char) : Option Card :=
  if s.length < 2 then none
  else
    match CardRank.from_string (s.take (s.length - 1)),
        CardSuite.from_chars (s.drop (s.length - 1)) with
    | some r, some su => some { rank := r, suite := su }
    | _, _ => none

/-- `Card::get_highest_card`: sort ascending by rank and take the last card;
the `unwrap` on an empty collection is modelled as `none`. -/
def Card.get_highest_card (cards : List Card) : Option Card :=
  (sort_cards cards).getLast?

/-- The hand categories, low to high, mirroring `PokerHandRank`. -/
inductive PokerHandRank : Type
  | HighCard
  | OnePair
  | TwoPairs
  | ThreeOfAKind
  | Straight
  | Flush
  | FullHouse
  | FourOfAKind
  | StraightFlush
  | RoyalFlush
deriving DecidableEq

/-- `PokerHandRank::as_number`: the discriminant, 1..10 in declaration order. -/
def PokerHandRank.as_number : PokerHandRank → Nat
  | PokerHandRank.HighCard => 1
  | PokerHandRank.OnePair => 2
  | PokerHandRank.TwoPairs => 3
  | PokerHandRank.ThreeOfAKind => 4
  | PokerHandRank.Straight => 5
  | PokerHandRank.Flush => 6
  | PokerHandRank.FullHouse => 7
  | PokerHandRank.FourOfAKind => 8
  | PokerHandRank.StraightFlush => 9
  | PokerHandRank.RoyalFlush => 10

/-- One step of building the suite map: increment the count of suite index `s`. -/
def bump_suite (m : Nat → Nat) (s : Nat) : Nat → Nat :=
  fun i => if i = s then m i + 1 else m i

/-- `PokerHand::get_suite_map`: the 4-bucket suite-frequency map. -/
def get_suite_map (cards : List Card) : Nat → Nat :=
  cards.foldl (fun m card => bump_suite m card.suite.idx) (fun _ => 0)

/-- One step of building the rank map: increment the count at index `r`, and
additionally mirror an ace (`r = 14`) onto index 1, exactly as the loop body
of `get_rank_map` does. -/
def bump_rank (m : Nat → Nat) (r : Nat) : Nat → Nat :=
  fun i => if i = r then m i + 1 else if r = 14 ∧ i = 1 then m i + 1 else m i

/-- `PokerHand::get_rank_map`: the 15-entry rank-frequency map (indices 0..14);
each card bumps its rank's entry, and an ace additionally bumps entry 1. -/
def get_rank_map (cards : List Card) : Nat → Nat :=
  cards.foldl (fun m card => bump_rank m card.rank) (fun _ => 0)

/-- `PokerHand::is_flush`: some suite bucket holds all 5 cards. -/
def is_flush (suite_map : Nat → Nat) : Bool :=
  (List.range 4).any fun s => suite_map s == 5

/-- `PokerHand::is_straight`: some window of 5 consecutive entries of the
15-entry rank map (window starts 0..10, as `windows(5)` yields) is all ones,
and not the King/Ace/Two configuration; or entries 0..4 are all ones with an
ace present (the literal `rank_map[0..5]` slice of the source). -/
def is_straight (rank_map : Nat → Nat) : Bool :=
  (((List.range 11).any fun i => (List.range 5).all fun k => rank_map (i + k) == 1)
      && !(rank_map 13 == 1 && rank_map 14 == 1 && rank_map 2 == 1))
  || (((List.range 5).all fun k => rank_map k == 1) && rank_map 14 == 1)

/-- `PokerHand::is_high_sequence`: entries 10..14 of the rank map are all ones. -/
def is_high_sequence (rank_map : Nat → Nat) : Bool :=
  (List.range 5).all fun k => rank_map (10 + k) == 1

/-- `PokerHand::is_three_of_a_kind`: some rank-map entry equals 3. -/
def is_three_of_a_kind (ranks : Nat → Nat) : Bool :=
  (List.range 15).any fun i => ranks i == 3

/-- `PokerHand::is_four_of_a_kind`: some rank-map entry equals 4. -/
def is_four_of_a_kind (ranks : Nat → Nat) : Bool :=
  (List.range 15).any fun i => ranks i == 4

/-- `PokerHand::is_one_pair`: some rank-map entry equals 2. -/
def is_one_pair (ranks : Nat → Nat) : Bool :=
  (List.range 15).any fun i => ranks i == 2

/-- `PokerHand::is_full_house`: a three of a kind together with a pair. -/
def is_full_house (ranks : Nat → Nat) : Bool :=
  is_three_of_a_kind ranks && is_one_pair ranks

/-- `PokerHand::is_two_pairs`: exactly two rank-map entries equal 2. -/
def is_two_pairs (ranks : Nat → Nat) : Bool :=
  (List.range 15).countP (fun i => ranks i == 2) == 2

/-- Least index `i < n` satisfying `p`, mirroring `iter().position` over an
array of `n` entries. -/
def first_index (p : Nat → Bool) : Nat → Option Nat
  | 0 => none
  | n + 1 =>
    match first_index p n with
    | some i => some i
    | none => if p n then some n else none

/-- Greatest index `i < n` satisfying `p`, mirroring `iter().rposition`. -/
def last_index (p : Nat → Bool) : Nat → Option Nat
  | 0 => none
  | n + 1 => if p n then some n else last_index p n

/-- A pair grouping: its rank and its two cards. -/
structure Pair where
  rank : Nat
  cards : List Card
deriving DecidableEq

/-- A triplet grouping: its rank and its three cards. -/
structure Triplet where
  rank : Nat
  cards : List Card
deriving DecidableEq

/-- A quadruplet grouping: its rank and its four cards. -/
structure Quadruplet where
  rank : Nat
  cards : List Card
deriving DecidableEq

/-- A straight grouping: the comparison rank and the five ordered cards. -/
structure Sequence where
  rank : Nat
  cards : List Card
deriving DecidableEq

/-- `PokerHand::get_triplet`. The `unwrap` of the position search and the
`cards[0..2]` indexing are modelled as the outer `none`. -/
def get_triplet (cards : List Card) : Option (Option Triplet) :=
  let ranks := get_rank_map cards
  if is_three_of_a_kind ranks || is_full_house ranks then
    match first_index (fun i => ranks i == 3) 15 with
    | none => none
    | some idx =>
      let rank0 := CardRank.from_number idx
      let rank := if rank0 = 1 then 14 else rank0
      match cards.filter (fun card => card.rank == rank) with
      | c0 :: c1 :: c2 :: _ => some (some { rank := rank, cards := [c0, c1, c2] })
      | _ => none
  else some none

/-- `PokerHand::get_quadruplet`, analogous to `get_triplet` for frequency 4. -/
def get_quadruplet (cards : List Card) : Option (Option Quadruplet) :=
  let ranks := get_rank_map cards
  if is_four_of_a_kind ranks then
    match first_index (fun i => ranks i == 4) 15 with
    | none => none
    | some idx =>
      let rank0 := CardRank.from_number idx
      let rank := if rank0 = 1 then 14 else rank0
      match cards.filter (fun card => card.rank == rank) with
      | c0 :: c1 :: c2 :: c3 :: _ =>
        some (some { rank := rank, cards := [c0, c1, c2, c3] })
      | _ => none
  else some none

/-- `PokerHand::get_pairs`. In the two-pairs branch the first pair comes from
the `rposition` of an entry equal to 2 and the second from the `position` of
an entry equal to 2 whose `from_number` applied to the COUNT (the source's
`Nat::from_number(r as u8)` with `r` the frequency) differs from the
first pair's rank; `unwrap`s and the `cards[0]`/`cards[1]` indexing are
modelled as the outer `none`. -/
def get_pairs (cards : List Card) : Option (Option (Pair × Option Pair)) :=
  let ranks := get_rank_map cards
  if is_two_pairs ranks then
    match last_index (fun i => ranks i == 2) 15 with
    | none => none
    | some j =>
      let rank1 := CardRank.from_number j
      match cards.filter (fun card => card.rank == rank1) with
      | c0 :: c1 :: _ =>
        match first_index
            (fun i => ranks i == 2 && CardRank.from_number (ranks i) != rank1) 15 with
        | none => none
        | some i2 =>
          let rank2 := CardRank.from_number i2
          match cards.filter (fun card => card.rank == rank2) with
          | d0 :: d1 :: _ =>
            some (some ({ rank := rank1, cards := [c0, c1] },
              some { rank := rank2, cards := [d0, d1] }))
          | _ => none
      | _ => none
  else if is_one_pair ranks || is_full_house ranks then
    match first_index (fun i => ranks i == 2) 15 with
    | none => none
    | some i =>
      let rank := CardRank.from_number i
      match cards.filter (fun card => card.rank == rank) with
      | c0 :: c1 :: _ => some (some ({ rank := rank, cards := [c0, c1] }, none))
      | _ => none
  else some none

/-- `PokerHand::get_sequence`: sort ascending, build the rank map, and if the
hand is a straight take the least and greatest occupied indices; the
`(LowAce, Ace)` combination re-maps the last (highest) card to the low ace and
yields comparison rank Five, every other straight yields its maximal rank.
The `expect` on a non-5-card hand and the `unwrap`s are the outer `none`. -/
def get_sequence (cards : List Card) : Option (Option Sequence) :=
  match sort_cards cards with
  | [c0, c1, c2, c3, c4] =>
    let ranks := get_rank_map [c0, c1, c2, c3, c4]
    if is_straight ranks then
      match first_index (fun i => decide (0 < ranks i)) 15,
          last_index (fun i => decide (0 < ranks i)) 15 with
      | some minIdx, some maxIdx =>
        let minRank := CardRank.from_number minIdx
        let maxRank := CardRank.from_number maxIdx
        if minRank = 1 ∧ maxRank = 14 then
          match sort_cards [c0, c1, c2, c3, { rank := 1, suite := c4.suite }] with
          | [x0, x1, x2, x3, x4] =>
            some (some { rank := 5, cards := [x0, x1, x2, x3, x4] })
          | _ => none
        else some (some { rank := maxRank, cards := [c0, c1, c2, c3, c4] })
      | _, _ => none
    else some none
  | _ => none

/-- `PokerHand::get_rank`: the category derivation, in the source's
evaluation order. -/
def get_rank (cards : List Card) : PokerHandRank :=
  let suites := get_suite_map cards
  let ranks := get_rank_map cards
  let isfl := is_flush suites
  let isst := is_straight ranks
  if isfl && isst then
    if is_high_sequence ranks then PokerHandRank.RoyalFlush
    else PokerHandRank.StraightFlush
  else if is_four_of_a_kind ranks then PokerHandRank.FourOfAKind
  else if is_full_house ranks then PokerHandRank.FullHouse
  else if isfl then PokerHandRank.Flush
  else if isst then PokerHandRank.Straight
  else if is_three_of_a_kind ranks then PokerHandRank.ThreeOfAKind
  else if is_two_pairs ranks then PokerHandRank.TwoPairs
  else if is_one_pair ranks then PokerHandRank.OnePair
  else PokerHandRank.HighCard

/-- Helper for whitespace splitting: accumulates the current token (reversed). -/
def split_ws_aux : List Char → List Char → List (List Char)
  | [], acc => if acc.isEmpty then [] else [acc.reverse]
  | c :: rest, acc =>
    if c.isWhitespace then
      if acc.isEmpty then split_ws_aux rest []
      else acc.reverse :: split_ws_aux rest []
    else split_ws_aux rest (c :: acc)

/-- `split_whitespace`: the maximal non-whitespace runs of a character list. -/
def split_ws (s : List Char) : List (List Char) := split_ws_aux s []

/-- `PokerHand::cards_from_raw_string`: split the raw hand string on
whitespace, require exactly 5 tokens (the `assert!`), parse each card, and
sort ascending by rank. -/
def cards_from_raw_string (raw : String) : Option (List Card) :=
  let toks := split_ws raw.data
  if toks.length = 5 then
    match toks.mapM Card.new with
    | some cs => some (sort_cards cs)
    | none => none
  else none

/-- A scored hand: category, the 5 sorted cards, the raw input text, and the
auxiliary groupings populated for its category, mirroring `PokerHand`. -/
structure PokerHand where
  rank : PokerHandRank
  cards : List Card
  raw : String
  pairs : Option (Pair × Option Pair)
  triplet : Option Triplet
  quadruplet : Option Quadruplet
  sequence : Option Sequence
deriving DecidableEq

/-- `PokerHand::new`: parse and sort the cards, derive the category, and
populate exactly the auxiliary groupings the source populates for that
category; any panic along the way is `none`. -/
def PokerHand.new (raw : String) : Option PokerHand :=
  match cards_from_raw_string raw with
  | none => none
  | some cards =>
    match get_rank cards with
    | PokerHandRank.HighCard =>
      some ⟨PokerHandRank.HighCard, cards, raw, none, none, none, none⟩
    | PokerHandRank.OnePair =>
      match get_pairs cards with
      | none => none
      | some p => some ⟨PokerHandRank.OnePair, cards, raw, p, none, none, none⟩
    | PokerHandRank.TwoPairs =>
      match get_pairs cards with
      | none => none
      | some p => some ⟨PokerHandRank.TwoPairs, cards, raw, p, none, none, none⟩
    | PokerHandRank.ThreeOfAKind =>
      match get_triplet cards with
      | none => none
      | some t => some ⟨PokerHandRank.ThreeOfAKind, cards, raw, none, t, none, none⟩
    | PokerHandRank.Straight =>
      match get_sequence cards with
      | none => none
      | some sq => some ⟨PokerHandRank.Straight, cards, raw, none, none, none, sq⟩
    | PokerHandRank.Flush =>
      some ⟨PokerHandRank.Flush, cards, raw, none, none, none, none⟩
    | PokerHandRank.FullHouse =>
      match get_pairs cards, get_triplet cards with
      | some p, some t => some ⟨PokerHandRank.FullHouse, cards, raw, p, t, none, none⟩
      | _, _ => none
    | PokerHandRank.FourOfAKind =>
      match get_quadruplet cards with
      | none => none
      | some q => some ⟨PokerHandRank.FourOfAKind, cards, raw, none, none, q, none⟩
    | PokerHandRank.StraightFlush =>
      match get_sequence cards with
      | none => none
      | some sq => some ⟨PokerHandRank.StraightFlush, cards, raw, none, none, none, sq⟩
    | PokerHandRank.RoyalFlush =>
      match get_sequence cards with
      | none => none
      | some sq => some ⟨PokerHandRank.RoyalFlush, cards, raw, none, none, none, sq⟩

/-- `get_cards`: all cards of all hands, in order. -/
def get_cards (hands : List PokerHand) : List Card :=
  (hands.map (fun h => h.cards)).flatten

/-- `filter_hands`: keep the hands whose card ranks contain every given rank. -/
def filter_hands (hands : List PokerHand) (ranks : List Nat) : List PokerHand :=
  hands.filter fun h => ranks.all fun r => (h.cards.map Card.rank).contains r

/-- `filter_cards`: drop the cards whose rank is among the given ranks. -/
def filter_cards (cards : List Card) (ranks : List Nat) : List Card :=
  cards.filter fun c => !(ranks.contains c.rank)

/-- `UntieHighestConfig`: number of elimination rounds and pre-locked ranks. -/
structure UntieHighestConfig where
  count : Nat
  ranks : List Nat

/-- The `for _ in 0..(count - 1)` loop of `untie_highest`; `fuel` is the
number of remaining iterations, and the `break` on an exhausted card pool as
well as the early return both yield the current hands. The `unwrap` inside
`Card::get_highest_card` on an empty pool is the `none`. -/
def untie_highest_loop :
    Nat → List PokerHand → List Card → List Nat → Option (List PokerHand)
  | 0, hands, _, _ => some hands
  | fuel + 1, hands, allCards, tiedRanks =>
    if hands.length ≤ 1 then some hands
    else if allCards.length = 0 then some hands
    else
      let allCards2 := filter_cards (get_cards hands) tiedRanks
      match Card.get_highest_card allCards2 with
      | none => none
      | some hc =>
        untie_highest_loop fuel (filter_hands hands (tiedRanks ++ [hc.rank]))
          allCards2 (tiedRanks ++ [hc.rank])

/-- `untie_highest`: iterative kicker elimination. The default configuration
is 5 rounds with no pre-locked ranks. -/
def untie_highest (hands : List PokerHand) (config : Option UntieHighestConfig) :
    Option (List PokerHand) :=
  let cfg := config.getD ⟨5, []⟩
  let hands1 := filter_hands hands cfg.ranks
  let allCards := filter_cards (get_cards hands1) cfg.ranks
  match Card.get_highest_card allCards with
  | none => none
  | some hc =>
    untie_highest_loop (cfg.count - 1)
      (filter_hands hands1 (cfg.ranks ++ [hc.rank])) allCards
      (cfg.ranks ++ [hc.rank])

/-- `untie_straight`: keep the hands whose stored sequence rank is maximal;
indexing `sequences[0]` on an empty list is the `none`. -/
def untie_straight (hands : List PokerHand) : Option (List PokerHand) :=
  let seqs := hands.filterMap fun h => h.sequence.map fun sq => (sq, h)
  let seqs := sort_by (fun a b => decide (b.1.rank ≤ a.1.rank)) seqs
  match seqs with
  | [] => none
  | top :: _ =>
    some (((seqs.filter fun sh => sh.1.rank == top.1.rank).map fun sh => sh.2))

/-- `untie_four`: keep the hands with the maximal quadruplet rank, then one
round of kicker elimination skipping that rank. -/
def untie_four (hands : List PokerHand) : Option (List PokerHand) :=
  let quads := hands.filterMap fun h => h.quadruplet.map fun q => (q, h)
  let quads := sort_by (fun a b => decide (b.1.rank ≤ a.1.rank)) quads
  match quads with
  | [] => none
  | top :: _ =>
    let highest := top.1.rank
    let hands2 := (quads.filter fun qh => qh.1.rank == highest).map fun qh => qh.2
    untie_highest hands2 (some ⟨1, [highest]⟩)

/-- `untie_one_pair`: keep the hands with the maximal (first) pair rank, then
up to three rounds of kicker elimination skipping that rank. -/
def untie_one_pair (hands : List PokerHand) : Option (List PokerHand) :=
  let prs := hands.filterMap fun h => h.pairs.map fun p => (p, h)
  let prs := sort_by (fun a b => decide (b.1.1.rank ≤ a.1.1.rank)) prs
  match prs with
  | [] => none
  | top :: _ =>
    let highest := top.1.1.rank
    let hands2 := (prs.filter fun ph => ph.1.1.rank == highest).map fun ph => ph.2
    untie_highest hands2 (some ⟨3, [highest]⟩)

/-- Maximum of a list of ranks, mirroring `Iterator::max`. -/
def list_max : List Nat → Option Nat
  | [] => none
  | x :: xs =>
    match list_max xs with
    | none => some x
    | some y => some (max x y)

/-- `untie_two_pairs`: keep the hands with the maximal first-pair rank, then
the maximal second-pair rank, then (only if several hands remain) one round
of kicker elimination skipping both pair ranks. -/
def untie_two_pairs (hands : List PokerHand) : Option (List PokerHand) :=
  let prs := hands.filterMap fun h => h.pairs.map fun p => (p, h)
  let prs := sort_by (fun a b => decide (b.1.1.rank ≤ a.1.1.rank)) prs
  match prs with
  | [] => none
  | top :: _ =>
    let firstPairRank := top.1.1.rank
    let prs := prs.filter fun ph => ph.1.1.rank == firstPairRank
    let secondPairRank := list_max (prs.filterMap fun ph => ph.1.2.map fun p => p.rank)
    let prs :=
      match secondPairRank with
      | some r =>
        prs.filter fun (ph : (Pair × Option Pair) × PokerHand) =>
          match ph.1.2 with
          | some p => p.rank == r
          | none => false
      | none => prs
    let hands2 : List PokerHand := prs.map fun ph => ph.2
    if hands2.length > 1 then
      untie_highest hands2 (some ⟨1, [firstPairRank, secondPairRank.getD firstPairRank]⟩)
    else some hands2

/-- `untie_three`: every hand's triplet is `unwrap`ped (a missing triplet is
the outer `none`), the hands with the maximal triplet rank are kept, then up
to two rounds of kicker elimination skipping the triplet rank. -/
def untie_three (hands : List PokerHand) : Option (List PokerHand) :=
  match hands.mapM (fun h => h.triplet.map fun t => (t, h)) with
  | none => none
  | some triplets =>
    let triplets := sort_by (fun a b => decide (b.1.rank ≤ a.1.rank)) triplets
    match triplets with
    | [] => none
    | top :: _ =>
      let highest := top.1.rank
      let hands2 := (triplets.filter fun th => th.1.rank == highest).map fun th => th.2
      untie_highest hands2 (some ⟨2, [highest]⟩)

/-- `untie_full_house`: identical to `untie_three` — keep the hands with the
maximal triplet rank, then up to two elimination rounds skipping it. -/
def untie_full_house (hands : List PokerHand) : Option (List PokerHand) :=
  match hands.mapM (fun h => h.triplet.map fun t => (t, h)) with
  | none => none
  | some triplets =>
    let triplets := sort_by (fun a b => decide (b.1.rank ≤ a.1.rank)) triplets
    match triplets with
    | [] => none
    | top :: _ =>
      let highest := top.1.rank
      let hands2 := (triplets.filter fun th => th.1.rank == highest).map fun th => th.2
      untie_highest hands2 (some ⟨2, [highest]⟩)

/-- `untie`: restrict to hands of the given category, then dispatch to the
category-specific tie-breaker; `RoyalFlush` needs no further work. -/
def untie (hands : List PokerHand) (rank : PokerHandRank) : Option (List PokerHand) :=
  let hands := hands.filter fun h => h.rank == rank
  match rank with
  | PokerHandRank.HighCard => untie_highest hands none
  | PokerHandRank.Flush => untie_highest hands none
  | PokerHandRank.ThreeOfAKind => untie_three hands
  | PokerHandRank.FourOfAKind => untie_four hands
  | PokerHandRank.OnePair => untie_one_pair hands
  | PokerHandRank.TwoPairs => untie_two_pairs hands
  | PokerHandRank.Straight => untie_straight hands
  | PokerHandRank.StraightFlush => untie_straight hands
  | PokerHandRank.FullHouse => untie_full_house hands
  | PokerHandRank.RoyalFlush => some hands

/-- `winning_hands`: score every raw hand string, sort ascending by category,
take the maximal category, run the tie-breaker, and return the raw strings of
the surviving hands of that category; any panic along the way is `none`. -/
def winning_hands (hands : List String) : Option (List String) :=
  match hands.mapM PokerHand.new with
  | none => none
  | some scored =>
    let scored :=
      sort_by (fun a b => decide (a.rank.as_number ≤ b.rank.as_number)) scored
    match scored.getLast? with
    | none => none
    | some lastHand =>
      match untie scored lastHand.rank with
      | none => none
      | some winners =>
        some (((winners.filter fun h => h.rank == lastHand.rank).map fun h => h.raw))

/-- The sum of the 15 entries of a rank map, "the entries of the computed
rank-frequency map". -/
def rank_map_total (m : Nat → Nat) : Nat :=
  m 0 + m 1 + m 2 + m 3 + m 4 + m 5 + m 6 + m 7 + m 8 + m 9 + m 10 + m 11
    + m 12 + m 13 + m 14

/-- Modelled from the spec's wording of straight detection: a run of 5
consecutive rank ordinals scanning 1..14, each with frequency exactly 1,
that is not the King-Ace-Two wrap-around configuration; or the ace-low
special case, ranks 2,3,4,5 each occurring exactly once with an Ace present. -/
def spec_straight (m : Nat → Nat) : Prop :=
  ((∃ i, 1 ≤ i ∧ i + 4 ≤ 14 ∧ ∀ k, k < 5 → m (i + k) = 1) ∧
      ¬(m 13 = 1 ∧ m 14 = 1 ∧ m 2 = 1)) ∨
  (m 2 = 1 ∧ m 3 = 1 ∧ m 4 = 1 ∧ m 5 = 1 ∧ 1 ≤ m 14)

/-- The rank substrings accepted by `Nat::from_string` ("1" is the
internal low-ace token the source deliberately accepts). -/
def valid_rank_strs : List (List Char) :=
  [['1'], ['2'], ['3'], ['4'], ['5'], ['6'], ['7'], ['8'], ['9'],
    ['1', '0'], ['J'], ['Q'], ['K'], ['A']]

/-- The suite substrings accepted by `CardSuite::from_string`. -/
def valid_suite_strs : List (List Char) :=
  [['C'], ['D'], ['H'], ['S']]

/-- Unfolding the rank-map fold: each entry of the map counts the cards of
that rank, with entry 1 additionally receiving the count of aces. -/
theorem foldl_bump_rank_apply (cards : List Card) (m0 : Nat → Nat) (i : Nat) :
    (cards.foldl (fun m card => bump_rank m card.rank) m0) i
      = m0 i + (cards.map Card.rank).count i
        + (if i = 1 then (cards.map Card.rank).count 14 else 0) := by
  induction cards generalizing m0 with
  | nil => simp
  | cons c cs ih =>
    simp only [List.foldl_cons, List.map_cons]
    rw [ih]
    simp only [bump_rank, List.count_cons, beq_iff_eq]
    split_ifs <;> omega

/-- Pointwise description of `get_rank_map`. -/
theorem get_rank_map_apply (cards : List Card) (i : Nat) :
    get_rank_map cards i
      = (cards.map Card.rank).count i
        + (if i = 1 then (cards.map Card.rank).count 14 else 0) := by
  have h := foldl_bump_rank_apply cards (fun _ => 0) i
  simpa [get_rank_map] using h

/-- Entry 0 of the rank map of a hand of ordinary cards is 0. -/
theorem get_rank_map_zero (cards : List Card)
    (hv : ∀ c ∈ cards, 2 ≤ c.rank ∧ c.rank ≤ 14) :
    get_rank_map cards 0 = 0 := by
  rw [get_rank_map_apply]
  simp only [if_neg (by omega : ¬ (0 : Nat) = 1), Nat.add_zero]
  rw [List.count_eq_zero]
  intro hmem
  obtain ⟨c, hc, hrank⟩ := List.mem_map.mp hmem
  have := hv c hc
  omega

/-- Entry 1 of the rank map of a hand of ordinary cards is the ace count,
which is also entry 14. -/
theorem get_rank_map_one (cards : List Card)
    (hv : ∀ c ∈ cards, 2 ≤ c.rank ∧ c.rank ≤ 14) :
    get_rank_map cards 1 = (cards.map Card.rank).count 14 := by
  rw [get_rank_map_apply]
  have h1 : (cards.map Card.rank).count 1 = 0 := by
    rw [List.count_eq_zero]
    intro hmem
    obtain ⟨c, hc, hrank⟩ := List.mem_map.mp hmem
    have := hv c hc
    omega
  simp [h1]

/-- Entries 2..14 of the rank map are plain counts of the physical ranks. -/
theorem get_rank_map_ge_two (cards : List Card) (i : Nat) (hi : 2 ≤ i) :
    get_rank_map cards i = (cards.map Card.rank).count i := by
  rw [get_rank_map_apply]
  simp [if_neg (by omega : ¬ i = 1)]

/-- The counts of the values 2..14 in a list drawn from 2..14 sum to its
length. -/
theorem count_sum_eq_length (rs : List Nat) (hv : ∀ r ∈ rs, 2 ≤ r ∧ r ≤ 14) :
    rs.count 2 + rs.count 3 + rs.count 4 + rs.count 5 + rs.count 6 + rs.count 7
        + rs.count 8 + rs.count 9 + rs.count 10 + rs.count 11 + rs.count 12
        + rs.count 13 + rs.count 14
      = rs.length := by
  induction rs with
  | nil => simp
  | cons r rs ih =>
    obtain ⟨hr1, hr2⟩ := hv r (List.mem_cons_self r rs)
    have ih' := ih (fun x hx => hv x (List.mem_cons_of_mem r hx))
    simp only [List.count_cons, List.length_cons]
    interval_cases r <;> simp_all <;> omega

/-- `CardRank.from_number` is the identity on 1..14. -/
theorem from_number_eq_self (n : Nat) (h1 : 1 ≤ n) (h2 : n ≤ 14) :
    CardRank.from_number n = n := by
  show (n - 1) % 14 + 1 = n
  omega

/-- A failed `first_index` search means no index below the bound satisfies
the predicate. -/
theorem first_index_none (p : Nat → Bool) (n : Nat)
    (h : first_index p n = none) : ∀ j, j < n → p j = false := by
  induction n with
  | zero => intro j hj; omega
  | succ k ih =>
    rw [first_index] at h
    cases hf : first_index p k with
    | some i0 => rw [hf] at h; cases h
    | none =>
      rw [hf] at h
      by_cases hp : p k = true
      · rw [if_pos hp] at h; cases h
      · rw [if_neg hp] at h
        intro j hj
        rcases Nat.lt_succ_iff_lt_or_eq.mp hj with hlt | heq
        · exact ih hf j hlt
        · subst heq
          simpa using hp

/-- A successful `first_index` search returns the least index below the bound
that satisfies the predicate. -/
theorem first_index_spec (p : Nat → Bool) (n i : Nat)
    (h : first_index p n = some i) :
    p i = true ∧ i < n ∧ ∀ j, j < i → p j = false := by
  induction n with
  | zero => simp [first_index] at h
  | succ k ih =>
    rw [first_index] at h
    cases hf : first_index p k with
    | some i0 =>
      rw [hf] at h
      cases h
      obtain ⟨ha, hb, hc⟩ := ih hf
      exact ⟨ha, by omega, hc⟩
    | none =>
      rw [hf] at h
      by_cases hp : p k = true
      · rw [if_pos hp] at h
        cases h
        refine ⟨hp, by omega, ?_⟩
        intro j hj
        exact first_index_none p _ hf j hj
      · rw [if_neg hp] at h
        cases h

/-- A successful `last_index` search returns the greatest index below the
bound that satisfies the predicate. -/
theorem last_index_spec (p : Nat → Bool) (n i : Nat)
    (h : last_index p n = some i) :
    p i = true ∧ i < n ∧ ∀ j, i < j → j < n → p j = false := by
  induction n with
  | zero => simp [last_index] at h
  | succ k ih =>
    rw [last_index] at h
    by_cases hp : p k = true
    · rw [if_pos hp] at h
      cases h
      exact ⟨hp, by omega, fun j hj1 hj2 => by omega⟩
    · rw [if_neg hp] at h
      obtain ⟨ha, hb, hc⟩ := ih h
      refine ⟨ha, by omega, ?_⟩
      intro j hj1 hj2
      rcases Nat.lt_succ_iff_lt_or_eq.mp hj2 with hlt | heq
      · exact hc j hj1 hlt
      · subst heq
        simpa using hp

/-- `is_two_pairs` yields two distinct rank-map indices with count 2. -/
theorem is_two_pairs_exists (m : Nat → Nat) (h : is_two_pairs m = true) :
    ∃ a b, a < b ∧ b < 15 ∧ m a = 2 ∧ m b = 2 := by
  have hcount : ((List.range 15).filter (fun i => m i == 2)).length = 2 := by
    have := (beq_iff_eq).mp h
    rwa [List.countP_eq_length_filter] at this
  obtain ⟨a, b, hab⟩ := List.length_eq_two.mp hcount
  have hpw : ((List.range 15).filter (fun i => m i == 2)).Pairwise (· < ·) :=
    (List.pairwise_lt_range 15).filter _
  rw [hab] at hpw
  have hlt : a < b := by
    simpa using List.rel_of_pairwise_cons hpw (List.mem_singleton_self b)
  have hmem_a : a ∈ (List.range 15).filter (fun i => m i == 2) := by
    rw [hab]; simp
  have hmem_b : b ∈ (List.range 15).filter (fun i => m i == 2) := by
    rw [hab]; simp
  rw [List.mem_filter, List.mem_range] at hmem_a hmem_b
  exact ⟨a, b, hlt, hmem_b.1, (beq_iff_eq).mp hmem_a.2, (beq_iff_eq).mp hmem_b.2⟩

/-- The entries 2..14 of the rank map of ordinary cards sum to the number of
cards. -/
theorem get_rank_map_phys_sum (cards : List Card)
    (hv : ∀ c ∈ cards, 2 ≤ c.rank ∧ c.rank ≤ 14) :
    get_rank_map cards 2 + get_rank_map cards 3 + get_rank_map cards 4
        + get_rank_map cards 5 + get_rank_map cards 6 + get_rank_map cards 7
        + get_rank_map cards 8 + get_rank_map cards 9 + get_rank_map cards 10
        + get_rank_map cards 11 + get_rank_map cards 12 + get_rank_map cards 13
        + get_rank_map cards 14
      = cards.length := by
  have hv' : ∀ r ∈ cards.map Card.rank, 2 ≤ r ∧ r ≤ 14 := by
    intro r hr
    obtain ⟨c, hc, rfl⟩ := List.mem_map.mp hr
    exact hv c hc
  have hsum := count_sum_eq_length (cards.map Card.rank) hv'
  rw [get_rank_map_ge_two cards 2 (by omega), get_rank_map_ge_two cards 3 (by omega),
    get_rank_map_ge_two cards 4 (by omega), get_rank_map_ge_two cards 5 (by omega),
    get_rank_map_ge_two cards 6 (by omega), get_rank_map_ge_two cards 7 (by omega),
    get_rank_map_ge_two cards 8 (by omega), get_rank_map_ge_two cards 9 (by omega),
    get_rank_map_ge_two cards 10 (by omega), get_rank_map_ge_two cards 11 (by omega),
    get_rank_map_ge_two cards 12 (by omega), get_rank_map_ge_two cards 13 (by omega),
    get_rank_map_ge_two cards 14 (by omega)]
  simpa using hsum

/-- C5 (amended): for every 5-card hand of ordinary cards, the 15 entries of
the computed rank-frequency map sum to 5 plus the number of aces in the hand
(the ace count is mirrored onto entry 1), not to 5. -/
theorem c5_rank_map_total_eq_five_add_aces (cards : List Card)
    (hv : ∀ c ∈ cards, 2 ≤ c.rank ∧ c.rank ≤ 14) (h5 : cards.length = 5) :
    rank_map_total (get_rank_map cards) = 5 + (cards.map Card.rank).count 14 := by
  unfold rank_map_total
  have hphys := get_rank_map_phys_sum cards hv
  have h0 := get_rank_map_zero cards hv
  have h1 := get_rank_map_one cards hv
  have h14 := get_rank_map_ge_two cards 14 (by omega)
  omega

/-- C5 (counterexample): a hand containing an ace whose rank-map entries sum
to 6, not 5 — the claimed invariant fails on every hand with an ace. -/
theorem c5_rank_map_total_ne_five :
    rank_map_total (get_rank_map
      [⟨14, CardSuite.Hearts⟩, ⟨2, CardSuite.Clubs⟩, ⟨3, CardSuite.Diamonds⟩,
        ⟨4, CardSuite.Spades⟩, ⟨6, CardSuite.Hearts⟩]) ≠ 5 := by decide

/-- C5 (witness): the amended sum theorem applied to a concrete hand with one
ace, whose entries sum to 6 = 5 + 1. -/
theorem c5_rank_map_total_witness :
    (∀ c ∈ ([⟨14, CardSuite.Hearts⟩, ⟨2, CardSuite.Clubs⟩, ⟨3, CardSuite.Diamonds⟩,
        ⟨4, CardSuite.Spades⟩, ⟨6, CardSuite.Hearts⟩] : List Card),
      2 ≤ c.rank ∧ c.rank ≤ 14) ∧
    rank_map_total (get_rank_map
        [⟨14, CardSuite.Hearts⟩, ⟨2, CardSuite.Clubs⟩, ⟨3, CardSuite.Diamonds⟩,
          ⟨4, CardSuite.Spades⟩, ⟨6, CardSuite.Hearts⟩])
      = 5 + (([⟨14, CardSuite.Hearts⟩, ⟨2, CardSuite.Clubs⟩, ⟨3, CardSuite.Diamonds⟩,
          ⟨4, CardSuite.Spades⟩, ⟨6, CardSuite.Hearts⟩] : List Card).map Card.rank).count 14 :=
  ⟨by decide, c5_rank_map_total_eq_five_add_aces _ (by decide) (by decide)⟩

/-- C7: for every 5-card hand of ordinary cards, the source's straight
detection agrees exactly with the specification's description: a run of 5
consecutive ordinals in 1..14, each with frequency 1, excluding the
King-Ace-Two configuration, or the ace-low case (ranks 2,3,4,5 once each with
an ace present). -/
theorem c7_is_straight_iff_spec (cards : List Card)
    (hv : ∀ c ∈ cards, 2 ≤ c.rank ∧ c.rank ≤ 14) (h5 : cards.length = 5) :
    is_straight (get_rank_map cards) = true ↔ spec_straight (get_rank_map cards) := by
  have h0 := get_rank_map_zero cards hv
  have h1 := get_rank_map_one cards hv
  have h14 := get_rank_map_ge_two cards 14 (by omega)
  have hphys := get_rank_map_phys_sum cards hv
  rw [h5] at hphys
  unfold spec_straight
  simp only [is_straight, Bool.or_eq_true, Bool.and_eq_true, Bool.not_eq_true',
    List.any_eq_true, List.all_eq_true, List.mem_range, beq_iff_eq,
    Bool.and_eq_false_iff, beq_eq_false_iff_ne]
  constructor
  · rintro (⟨⟨i, hi, hall⟩, hexcl⟩ | ⟨hall, _⟩)
    · left
      have hi1 : 1 ≤ i := by
        rcases Nat.eq_zero_or_pos i with rfl | hpos
        · have h00 := hall 0 (by omega)
          simp at h00
          omega
        · omega
      refine ⟨⟨i, hi1, by omega, fun k hk => hall k hk⟩, ?_⟩
      rintro ⟨ha, hb, hc⟩
      rcases hexcl with (h' | h') | h' <;> omega
    · exfalso
      have := hall 0 (by omega)
      omega
  · rintro (⟨⟨i, hi1, hi4, hall⟩, hexcl⟩ | ⟨ha2, ha3, ha4, ha5, hace⟩)
    · left
      refine ⟨⟨i, by omega, fun k hk => hall k hk⟩, ?_⟩
      by_cases h13 : get_rank_map cards 13 = 1
      · by_cases hb14 : get_rank_map cards 14 = 1
        · right
          intro h2
          exact hexcl ⟨h13, hb14, h2⟩
        · left; right; exact hb14
      · left; left; exact h13
    · have hm14 : get_rank_map cards 14 = 1 := by omega
      have hm13 : get_rank_map cards 13 = 0 := by omega
      have hm1 : get_rank_map cards 1 = 1 := by omega
      left
      constructor
      · refine ⟨1, by omega, ?_⟩
        intro k hk
        interval_cases k
        · exact hm1
        · exact ha2
        · exact ha3
        · exact ha4
        · exact ha5
      · left; left; omega

/-- C7 (witness): the straight-detection equivalence applied to the concrete
hand 2C 3D 4H 5S 6C, which both sides classify as a straight. -/
theorem c7_is_straight_witness :
    is_straight (get_rank_map
        [⟨2, CardSuite.Clubs⟩, ⟨3, CardSuite.Diamonds⟩, ⟨4, CardSuite.Hearts⟩,
          ⟨5, CardSuite.Spades⟩, ⟨6, CardSuite.Clubs⟩]) = true
      ↔ spec_straight (get_rank_map
        [⟨2, CardSuite.Clubs⟩, ⟨3, CardSuite.Diamonds⟩, ⟨4, CardSuite.Hearts⟩,
          ⟨5, CardSuite.Spades⟩, ⟨6, CardSuite.Clubs⟩]) :=
  c7_is_straight_iff_spec _ (by decide) (by decide)

/-- C10: whenever `get_pairs` returns two pairs on a hand of ordinary cards,
the first returned pair's rank is strictly greater than the second's. -/
theorem c10_get_pairs_first_higher (cards : List Card)
    (hv : ∀ c ∈ cards, 2 ≤ c.rank ∧ c.rank ≤ 14)
    (p1 p2 : Pair) (h : get_pairs cards = some (some (p1, some p2))) :
    p2.rank < p1.rank := by
  have h0 := get_rank_map_zero cards hv
  simp only [get_pairs] at h
  by_cases htp : is_two_pairs (get_rank_map cards) = true
  case neg =>
    rw [if_neg htp] at h
    by_cases hop : (is_one_pair (get_rank_map cards) || is_full_house (get_rank_map cards)) = true
    · rw [if_pos hop] at h
      cases hfi : first_index (fun i => get_rank_map cards i == 2) 15 with
      | none => simp only [hfi] at h; simp at h
      | some i =>
        simp only [hfi] at h
        cases hfil : cards.filter
            (fun card => card.rank == CardRank.from_number i) with
        | nil => simp only [hfil] at h; simp at h
        | cons c0 rest =>
          cases rest with
          | nil => simp only [hfil] at h; simp at h
          | cons c1 rest2 => simp only [hfil] at h; simp at h
    · rw [if_neg hop] at h
      simp at h
  case pos =>
    rw [if_pos htp] at h
    cases hj : last_index (fun i => get_rank_map cards i == 2) 15 with
    | none => simp only [hj] at h; simp at h
    | some j =>
      simp only [hj] at h
      obtain ⟨hjp, hj15, hjmax⟩ := last_index_spec _ _ _ hj
      have hjm : get_rank_map cards j = 2 := by simpa using hjp
      have hj1 : 1 ≤ j := by
        rcases Nat.eq_zero_or_pos j with rfl | hpos
        · omega
        · omega
      have hjid : CardRank.from_number j = j := from_number_eq_self j hj1 (by omega)
      cases hfil : cards.filter (fun card => card.rank == CardRank.from_number j) with
      | nil => simp only [hfil] at h; simp at h
      | cons c0 rest =>
        cases rest with
        | nil => simp only [hfil] at h; simp at h
        | cons c1 rest2 =>
          simp only [hfil] at h
          cases hfi : first_index
              (fun i => get_rank_map cards i == 2
                && CardRank.from_number (get_rank_map cards i)
                  != CardRank.from_number j) 15 with
          | none => simp only [hfi] at h; simp at h
          | some i2 =>
            simp only [hfi] at h
            obtain ⟨hip, hi15, himin⟩ := first_index_spec _ _ _ hfi
            rw [Bool.and_eq_true] at hip
            have him : get_rank_map cards i2 = 2 := by simpa using hip.1
            have hine : CardRank.from_number (get_rank_map cards i2)
                ≠ CardRank.from_number j := by simpa using hip.2
            rw [him] at hine
            have hfn2 : CardRank.from_number 2 = 2 := by decide
            rw [hfn2, hjid] at hine
            have hi1 : 1 ≤ i2 := by
              rcases Nat.eq_zero_or_pos i2 with rfl | hpos
              · omega
              · omega
            have hiid : CardRank.from_number i2 = i2 :=
              from_number_eq_self i2 hi1 (by omega)
            obtain ⟨a, b, hab, hb15, ham, hbm⟩ := is_two_pairs_exists _ htp
            have hble : b ≤ j := by
              by_contra hcon
              have := hjmax b (by omega) hb15
              simp at this
              omega
            have hk0 : ∃ k, k < j ∧ get_rank_map cards k = 2 := by
              by_cases hbj : b = j
              · exact ⟨a, by omega, ham⟩
              · exact ⟨b, by omega, hbm⟩
            obtain ⟨k, hkj, hkm⟩ := hk0
            have hkpred : (get_rank_map cards k == 2
                && CardRank.from_number (get_rank_map cards k)
                  != CardRank.from_number j) = true := by
              rw [hkm, hfn2, hjid]
              simp [bne_iff_ne]
              omega
            have hik : i2 ≤ k := by
              by_contra hcon
              have := himin k (by omega)
              rw [hkpred] at this
              cases this
            have hij : i2 < j := by omega
            cases hfil2 : cards.filter
                (fun card => card.rank == CardRank.from_number i2) with
            | nil => simp only [hfil2] at h; simp at h
            | cons d0 rest3 =>
              cases rest3 with
              | nil => simp only [hfil2] at h; simp at h
              | cons d1 rest4 =>
                simp only [hfil2] at h
                simp only [Option.some.injEq, Prod.mk.injEq] at h
                obtain ⟨hp1, hp2⟩ := h
                have hr1 : p1.rank = j := by rw [← hp1, hjid]
                have hr2 : p2.rank = i2 := by
                  have := hp2
                  cases this
                  rw [hiid]
                omega

/-- C10 (witness): `get_pairs` on the concrete two-pair hand 3H 3D 7C 7S 9C
returns the sevens first and the threes second, and 3 < 7. -/
theorem c10_get_pairs_witness :
    get_pairs ([⟨3, CardSuite.Hearts⟩, ⟨3, CardSuite.Diamonds⟩, ⟨7, CardSuite.Clubs⟩,
        ⟨7, CardSuite.Spades⟩, ⟨9, CardSuite.Clubs⟩] : List Card)
      = some (some (⟨7, [⟨7, CardSuite.Clubs⟩, ⟨7, CardSuite.Spades⟩]⟩,
        some ⟨3, [⟨3, CardSuite.Hearts⟩, ⟨3, CardSuite.Diamonds⟩]⟩))
    ∧ (⟨3, [⟨3, CardSuite.Hearts⟩, ⟨3, CardSuite.Diamonds⟩]⟩ : Pair).rank
      < (⟨7, [⟨7, CardSuite.Clubs⟩, ⟨7, CardSuite.Spades⟩]⟩ : Pair).rank :=
  ⟨by decide,
    c10_get_pairs_first_higher
      [⟨3, CardSuite.Hearts⟩, ⟨3, CardSuite.Diamonds⟩, ⟨7, CardSuite.Clubs⟩,
        ⟨7, CardSuite.Spades⟩, ⟨9, CardSuite.Clubs⟩]
      (by decide)
      ⟨7, [⟨7, CardSuite.Clubs⟩, ⟨7, CardSuite.Spades⟩]⟩
      ⟨3, [⟨3, CardSuite.Hearts⟩, ⟨3, CardSuite.Diamonds⟩]⟩
      (by decide)⟩

/-- Failing to parse a rank substring is exactly non-membership in the list of
accepted rank tokens. -/
theorem from_string_eq_none_iff (t : List Char) :
    CardRank.from_string t = none ↔ t ∉ valid_rank_strs := by
  constructor
  · intro h hmem
    simp only [valid_rank_strs, List.mem_cons, List.not_mem_nil, or_false] at hmem
    rcases hmem with rfl | rfl | rfl | rfl | rfl | rfl | rfl | rfl | rfl | rfl
      | rfl | rfl | rfl | rfl <;> exact absurd h (by decide)
  · intro h
    have h1 : t ≠ ['1'] := by rintro rfl; exact h (by decide)
    have h2 : t ≠ ['2'] := by rintro rfl; exact h (by decide)
    have h3 : t ≠ ['3'] := by rintro rfl; exact h (by decide)
    have h4 : t ≠ ['4'] := by rintro rfl; exact h (by decide)
    have h5 : t ≠ ['5'] := by rintro rfl; exact h (by decide)
    have h6 : t ≠ ['6'] := by rintro rfl; exact h (by decide)
    have h7 : t ≠ ['7'] := by rintro rfl; exact h (by decide)
    have h8 : t ≠ ['8'] := by rintro rfl; exact h (by decide)
    have h9 : t ≠ ['9'] := by rintro rfl; exact h (by decide)
    have h10 : t ≠ ['1', '0'] := by rintro rfl; exact h (by decide)
    have h11 : t ≠ ['J'] := by rintro rfl; exact h (by decide)
    have h12 : t ≠ ['Q'] := by rintro rfl; exact h (by decide)
    have h13 : t ≠ ['K'] := by rintro rfl; exact h (by decide)
    have h14 : t ≠ ['A'] := by rintro rfl; exact h (by decide)
    unfold CardRank.from_string
    rw [if_neg h1, if_neg h2, if_neg h3, if_neg h4, if_neg h5, if_neg h6,
      if_neg h7, if_neg h8, if_neg h9, if_neg h10, if_neg h11, if_neg h12,
      if_neg h13, if_neg h14]

/-- Failing to parse a suite substring is exactly non-membership in the list
of accepted suite tokens. -/
theorem from_chars_eq_none_iff (t : List Char) :
    CardSuite.from_chars t = none ↔ t ∉ valid_suite_strs := by
  constructor
  · intro h hmem
    simp only [valid_suite_strs, List.mem_cons, List.not_mem_nil, or_false] at hmem
    rcases hmem with rfl | rfl | rfl | rfl <;> exact absurd h (by decide)
  · intro h
    have h1 : t ≠ ['C'] := by rintro rfl; exact h (by decide)
    have h2 : t ≠ ['D'] := by rintro rfl; exact h (by decide)
    have h3 : t ≠ ['H'] := by rintro rfl; exact h (by decide)
    have h4 : t ≠ ['S'] := by rintro rfl; exact h (by decide)
    unfold CardSuite.from_chars
    rw [if_neg h1, if_neg h2, if_neg h3, if_neg h4]

/-- C6 (amended): card parsing fails exactly when the token is shorter than 2
characters, or its rank substring is not one of "1", "2", ..., "10", "J",
"Q", "K", "A" (the source deliberately also accepts "1", building the
internal low ace), or its suite character is not one of C, D, H, S. -/
theorem c6_card_new_fails_iff (s : List Char) :
    Card.new s = none ↔
      (s.length < 2 ∨ s.take (s.length - 1) ∉ valid_rank_strs
        ∨ s.drop (s.length - 1) ∉ valid_suite_strs) := by
  by_cases hlen : s.length < 2
  · simp [Card.new, hlen]
  · rcases hr1 : CardRank.from_string (s.take (s.length - 1)) with _ | r <;>
      rcases hs1 : CardSuite.from_chars (s.drop (s.length - 1)) with _ | su
    · have ha := (from_string_eq_none_iff _).mp hr1
      simp [Card.new, hlen, hr1, hs1, ha]
    · have ha := (from_string_eq_none_iff _).mp hr1
      simp [Card.new, hlen, hr1, hs1, ha]
    · have hb := (from_chars_eq_none_iff _).mp hs1
      simp [Card.new, hlen, hr1, hs1, hb]
    · have ha : s.take (s.length - 1) ∈ valid_rank_strs := by
        by_contra hh
        rw [(from_string_eq_none_iff _).mpr hh] at hr1
        cases hr1
      have hb : s.drop (s.length - 1) ∈ valid_suite_strs := by
        by_contra hh
        rw [(from_chars_eq_none_iff _).mpr hh] at hs1
        cases hs1
      simp [Card.new, hlen, hr1, hs1, ha, hb]

/-- C6 (counterexample): the token "1H" is accepted by card parsing — it
produces the internal low-ace card — although the claim says it is rejected. -/
theorem c6_token_one_h_accepted :
    Card.new ['1', 'H'] = some ⟨1, CardSuite.Hearts⟩ := by decide

/-- C1: on the spec's own example of two identical full houses the evaluator
does not return both hands as co-winners — it panics: in the second kicker
round of the full-house tie-break both ranks of the hands are already locked,
the comparison pool is empty, and `Card::get_highest_card` unwraps `None`. -/
theorem c1_full_house_tie_panics :
    winning_hands ["3S 3H 2S 2H 2C", "2S 2H 2C 3S 3H"] = none := by decide

/-- C2: a hand with a pair of aces and three distinct kickers is classified
`TwoPairs`, not `OnePair` — the mirrored ace count at index 1 makes two
rank-map entries equal 2 (cards AS AC 4H 7D 9C). -/
theorem c2_ace_pair_classified_two_pairs :
    get_rank [⟨14, CardSuite.Spades⟩, ⟨14, CardSuite.Clubs⟩, ⟨4, CardSuite.Hearts⟩,
        ⟨7, CardSuite.Diamonds⟩, ⟨9, CardSuite.Clubs⟩]
      = PokerHandRank.TwoPairs := by decide

/-- C3: a hand with a pair of aces and a pair of kings is classified
`OnePair`, not `TwoPairs` — the mirrored ace count makes three rank-map
entries equal 2, so `is_two_pairs` is false (cards AH AD KH KD 2C). -/
theorem c3_aces_and_kings_classified_one_pair :
    get_rank [⟨14, CardSuite.Hearts⟩, ⟨14, CardSuite.Diamonds⟩, ⟨13, CardSuite.Hearts⟩,
        ⟨13, CardSuite.Diamonds⟩, ⟨2, CardSuite.Clubs⟩]
      = PokerHandRank.OnePair := by decide

/-- C4: the tie-breaker applied to two full houses with the same triplet rank
and the same pair rank does not return — the highest-card selection is
applied to an empty collection of comparison cards and its unwrap fails. -/
theorem c4_untie_full_house_unwrap_fails :
    (Option.bind (PokerHand.new "5S 5H 5C 8D 8H") fun h1 =>
      Option.bind (PokerHand.new "5D 5H 5C 8S 8C") fun h2 =>
        untie [h1, h2] PokerHandRank.FullHouse) = none := by decide

/-- C8: an ace-high straight (10C JD QH KS AC, true top rank 14) loses to a
king-high straight (9C 10D JH QS KC, top rank 13), because `get_sequence`
assigns comparison rank 5 to every ace-containing straight, not only to the
ace-low one; the claim's maximal-top-rank rule would return the first hand. -/
theorem c8_ace_high_straight_loses :
    winning_hands ["10C JD QH KS AC", "9C 10D JH QS KC"]
      = some ["9C 10D JH QS KC"] := by decide

/-- C9: the evaluator applied to the single well-formed hand AH AD 2C 3D 5S
does not return that hand — it panics while building the hand: the pair
extraction selects the mirrored low-ace entry, finds no card of rank 1, and
indexes an empty vector. -/
theorem c9_single_ace_pair_hand_panics :
    winning_hands ["AH AD 2C 3D 5S"] = none := by decide

end Poker
